import Mathlib

namespace Bigtools

/-- A BigWig value record (`Value` in `src/bigwig.rs`): a half-open basepair
interval with an `f32` value.  The `f32` payload is modelled by its 32-bit
pattern as a `Nat`; the reader code only copies these bits, never computes
with them. -/
structure Value where
  start : Nat
  stop : Nat
  value : Nat
  deriving Repr, DecidableEq

/-- A BED entry (`BedEntry` in `src/bigwig.rs`): half-open interval plus the
opaque rest-of-line string. -/
structure BedEntry where
  start : Nat
  stop : Nat
  rest : String
  deriving Repr, DecidableEq

/-! ## BigWig block decoding (`get_block_values`, `src/bigwig/bigwigread.rs`)

A data block of a BigWig file carries a 24-byte section header
`{chrom_id, chrom_start, chrom_end, item_step, item_span, section_type,
reserved, item_count}` followed by `item_count` items whose shape depends on
`section_type` (1 = bedGraph, 2 = variable step, 3 = fixed step).  We model
the decoded byte stream of one block: the header fields that the decoder
uses, and the per-item payloads. -/

/-- The per-item payloads of one section, by section type.  bedGraph items
are `(start, end, value-bits)`, variable-step items `(start, value-bits)`,
fixed-step items just value bits. -/
inductive SectionItems
  | bedGraph (items : List (Nat × Nat × Nat))
  | varStep (items : List (Nat × Nat))
  | fixedStep (items : List Nat)
  deriving Repr, DecidableEq

/-- A decoded BigWig data block: the header fields `get_block_values` reads,
plus the item payloads.  `item_count` is the length of the item list. -/
structure BWSection where
  chrom_start : Nat
  item_step : Nat
  item_span : Nat
  items : SectionItems
  deriving Repr, DecidableEq

/-- 2^32; the Rust code works in `u32`. -/
def U32MOD : Nat := 4294967296

/-- Wrapping `u32` addition, as in release-mode Rust. -/
def u32add (a b : Nat) : Nat := (a + b) % U32MOD

/-- The test-and-clip step at the end of the decode loop:
`if value.end >= start && value.start <= end { clamp to [start, end] }`
(`src/bigwig/bigwigread.rs` lines 429-433). -/
def keepClip (qs qe : Nat) (v : Value) : Option Value :=
  if qs ≤ v.stop ∧ v.start ≤ qe then
    some { v with start := max v.start qs, stop := min v.stop qe }
  else none

/-- The decode loop for a bedGraph (type 1) section. -/
def bwBedGraphLoop (qs qe : Nat) : List (Nat × Nat × Nat) → List Value
  | [] => []
  | (s, e, b) :: rest =>
    match keepClip qs qe ⟨s, e, b⟩ with
    | some w => w :: bwBedGraphLoop qs qe rest
    | none => bwBedGraphLoop qs qe rest

/-- The decode loop for a variable-step (type 2) section: each item's end is
`chrom_start + item_span` in `u32`. -/
def bwVarStepLoop (span qs qe : Nat) : List (Nat × Nat) → List Value
  | [] => []
  | (s, b) :: rest =>
    match keepClip qs qe ⟨s, u32add s span, b⟩ with
    | some w => w :: bwVarStepLoop span qs qe rest
    | none => bwVarStepLoop span qs qe rest

/-- The decode loop for a fixed-step (type 3) section: `curr_start` begins at
the header's `chrom_start` and advances by `item_step` per item. -/
def bwFixedStepLoop (step span qs qe curr : Nat) : List Nat → List Value
  | [] => []
  | b :: rest =>
    match keepClip qs qe ⟨curr, u32add curr span, b⟩ with
    | some w => w :: bwFixedStepLoop step span qs qe (u32add curr step) rest
    | none => bwFixedStepLoop step span qs qe (u32add curr step) rest

/-- `get_block_values(bigwig, block, known_offset, start, end)` restricted to
its record-producing part: decode each item of the block according to the
section type and keep the test-and-clipped records, in order. -/
def get_block_values (sec : BWSection) (qs qe : Nat) : List Value :=
  match sec.items with
  | .bedGraph items => bwBedGraphLoop qs qe items
  | .varStep items => bwVarStepLoop sec.item_span qs qe items
  | .fixedStep items =>
    bwFixedStepLoop sec.item_step sec.item_span qs qe sec.chrom_start items

/-- Spec-side: fixed-step decoding with no query filtering. -/
def decodeFixedStep (step span curr : Nat) : List Nat → List Value
  | [] => []
  | b :: rest => ⟨curr, u32add curr span, b⟩ :: decodeFixedStep step span (u32add curr step) rest

/-- Spec-side: the records of a block, decoded with no query filtering:
"those records of the file" that the block holds. -/
def decodeSection (sec : BWSection) : List Value :=
  match sec.items with
  | .bedGraph items => items.map (fun p => ⟨p.1, p.2.1, p.2.2⟩)
  | .varStep items => items.map (fun p => ⟨p.1, u32add p.1 sec.item_span, p.2⟩)
  | .fixedStep items => decodeFixedStep sec.item_step sec.item_span sec.chrom_start items

/-- Spec-side: the record `v` has a non-empty intersection with the half-open
query interval `[qs, qe)`. -/
def interNonempty (v : Value) (qs qe : Nat) : Prop :=
  max v.start qs < min v.stop qe

instance (v : Value) (qs qe : Nat) : Decidable (interNonempty v qs qe) := by
  unfold interNonempty; infer_instance

theorem keepClip_eq_some (qs qe : Nat) (r v : Value) :
    keepClip qs qe r = some v ↔
      (qs ≤ r.stop ∧ r.start ≤ qe) ∧ v = ⟨max r.start qs, min r.stop qe, r.value⟩ := by
  unfold keepClip
  split
  · simp only [Option.some.injEq]
    constructor
    · rintro rfl; exact ⟨by assumption, rfl⟩
    · rintro ⟨_, rfl⟩; rfl
  · simp only [reduceCtorEq, false_iff, not_and]
    intro h; exact absurd h (by assumption)

theorem bwBedGraphLoop_eq (qs qe : Nat) (items : List (Nat × Nat × Nat)) :
    bwBedGraphLoop qs qe items =
      (items.map (fun p => (⟨p.1, p.2.1, p.2.2⟩ : Value))).filterMap (keepClip qs qe) := by
  induction items with
  | nil => rfl
  | cons hd tl ih =>
    obtain ⟨s, e, b⟩ := hd
    simp only [bwBedGraphLoop, List.map_cons, List.filterMap_cons]
    cases h : keepClip qs qe ⟨s, e, b⟩ <;> simp [h, ih]

theorem bwVarStepLoop_eq (span qs qe : Nat) (items : List (Nat × Nat)) :
    bwVarStepLoop span qs qe items =
      (items.map (fun p => (⟨p.1, u32add p.1 span, p.2⟩ : Value))).filterMap
        (keepClip qs qe) := by
  induction items with
  | nil => rfl
  | cons hd tl ih =>
    obtain ⟨s, b⟩ := hd
    simp only [bwVarStepLoop, List.map_cons, List.filterMap_cons]
    cases h : keepClip qs qe ⟨s, u32add s span, b⟩ <;> simp [h, ih]

theorem bwFixedStepLoop_eq (step span qs qe curr : Nat) (items : List Nat) :
    bwFixedStepLoop step span qs qe curr items =
      (decodeFixedStep step span curr items).filterMap (keepClip qs qe) := by
  induction items generalizing curr with
  | nil => rfl
  | cons b tl ih =>
    simp only [bwFixedStepLoop, decodeFixedStep, List.filterMap_cons]
    cases h : keepClip qs qe ⟨curr, u32add curr span, b⟩ <;> simp [h, ih]

theorem get_block_values_eq_filterMap (sec : BWSection) (qs qe : Nat) :
    get_block_values sec qs qe = (decodeSection sec).filterMap (keepClip qs qe) := by
  unfold get_block_values decodeSection
  cases sec.items with
  | bedGraph items => exact bwBedGraphLoop_eq qs qe items
  | varStep items => exact bwVarStepLoop_eq sec.item_span qs qe items
  | fixedStep items => exact bwFixedStepLoop_eq sec.item_step sec.item_span qs qe sec.chrom_start items

/-- C1 (amended): a record `v` is yielded by `get_block_values` for the query
`[qs, qe)` precisely when the block decodes to a record `r` with
`qs ≤ r.end` and `r.start ≤ qe` — overlap or mere boundary touching — and
`v` is `r` clamped to `[max(r.start, qs), min(r.end, qe))`.  In particular a
record ending exactly at `qs` or starting exactly at `qe` is yielded, as a
zero-length record. -/
theorem C1_block_values_characterization (sec : BWSection) (qs qe : Nat) (v : Value) :
    v ∈ get_block_values sec qs qe ↔
      ∃ r ∈ decodeSection sec, (qs ≤ r.stop ∧ r.start ≤ qe) ∧
        v = ⟨max r.start qs, min r.stop qe, r.value⟩ := by
  rw [get_block_values_eq_filterMap, List.mem_filterMap]
  constructor
  · rintro ⟨r, hr, hc⟩
    exact ⟨r, hr, (keepClip_eq_some qs qe r v).mp hc⟩
  · rintro ⟨r, hr, hc⟩
    exact ⟨r, hr, (keepClip_eq_some qs qe r v).mpr hc⟩

/-- C1 counterexample: querying `[5, 10)` on a block holding the single
bedGraph record `[0, 5)` yields the clipped record `[5, 5)` even though the
record's intersection with `[5, 10)` is empty (it ends exactly at the query
start) — contradicting the claim that no record with empty intersection is
yielded. -/
theorem C1_counterexample :
    get_block_values ⟨0, 0, 0, .bedGraph [(0, 5, 77)]⟩ 5 10 = [⟨5, 5, 77⟩] ∧
    ¬ interNonempty ⟨0, 5, 77⟩ 5 10 ∧ ¬ interNonempty ⟨5, 5, 77⟩ 5 10 := by
  refine ⟨by decide, by decide, by decide⟩

/-! ## Writer pipeline: `ChromGroupReadStreamingIteratorImpl::next`
(`src/bedparser.rs`, `get_chromgroupstreamingiterator`)

The iterator pulls the next chromosome group from the grouper, checks that
its name compares strictly greater (byte-wise) than the previous one, looks
the name up in the caller-supplied chrom-sizes map, and only then begins
processing the group.  We model one call: the grouper's output is abstracted
to the group's chromosome name, and a successfully begun group is
represented by the `(chrom, length)` pair passed to
`begin_processing_chrom`. -/

/-- The error type of the write pipeline, restricted to the variant this
code path produces. -/
inductive WriteGroupsError
  | InvalidInput (msg : String)
  deriving Repr, DecidableEq

/-- Lexicographic strict order on char lists by code point.  UTF-8 byte-wise
comparison of Rust `String`s coincides with code-point lexicographic order,
so this models Rust's `String: Ord`. -/
def charListLt : List Char → List Char → Bool
  | _, [] => false
  | [], _ :: _ => true
  | a :: as, b :: bs => a.toNat < b.toNat || (a.toNat == b.toNat && charListLt as bs)

/-- Rust `a < b` on `String`. -/
def strLt (a b : String) : Bool := charListLt a.data b.data

/-- Rust `a >= b` on `String`. -/
def strGe (a b : String) : Bool := !(strLt a b)

/-- Whether `needle` occurs as a contiguous substring of the char list. -/
def charsInfix (needle : List Char) : List Char → Bool
  | [] => needle.isEmpty
  | c :: t => needle.isPrefixOf (c :: t) || charsInfix needle t

/-- Whether the string `sub` occurs as a contiguous substring of `hay`. -/
def strContains (hay sub : String) : Bool := charsInfix sub.data hay.data

/-- The fixed sort-violation message of
`ChromGroupReadStreamingIteratorImpl::next`. -/
def notSortedMsg : String :=
  "Input bedGraph not sorted by chromosome. Sort with `sort -k1,1 -k2,2n`."

/-- One call of `ChromGroupReadStreamingIteratorImpl::next`, given the
chrom-sizes map, the previous chromosome name and the grouper's next group
(abstracted to its chromosome name).  `none` output stands for the
end-of-stream path. -/
def writerIterNext (chrom_map : String → Option Nat) (last_chrom : Option String)
    (g : Option String) : Except WriteGroupsError (Option (String × Nat)) :=
  match g with
  | some chrom =>
    let afterSort : Except WriteGroupsError (Option (String × Nat)) :=
      match chrom_map chrom with
      | some length => Except.ok (some (chrom, length))
      | none =>
        Except.error (WriteGroupsError.InvalidInput
          ("Input bedGraph contains chromosome that isn't in the input chrom sizes: "
            ++ chrom))
    match last_chrom with
    | some c =>
      if strGe c chrom then
        Except.error (WriteGroupsError.InvalidInput notSortedMsg)
      else afterSort
    | none => afterSort
  | none => Except.ok none

/-- C2 (amended): when the new chromosome group's name does not compare
strictly greater (byte-wise) than the previous chromosome's name — the
equal-name case included — `next()` fails with an `InvalidInput` error whose
message says the input is not sorted; the message is a fixed string and does
not cite the offending chromosome name. -/
theorem C2_unsorted_error (chrom_map : String → Option Nat) (c chrom : String)
    (h : strGe c chrom = true) :
    writerIterNext chrom_map (some c) (some chrom) =
      Except.error (WriteGroupsError.InvalidInput notSortedMsg) ∧
    strContains notSortedMsg "not sorted" = true := by
  refine ⟨?_, by decide⟩
  simp [writerIterNext, h]

/-- C2 witness: an equal-name repetition of "chr2" triggers the sort error. -/
theorem C2_unsorted_error_witness :
    strGe "chr2" "chr2" = true ∧
    writerIterNext (fun _ => some 1000) (some "chr2") (some "chr2") =
      Except.error (WriteGroupsError.InvalidInput notSortedMsg) :=
  ⟨by decide, (C2_unsorted_error (fun _ => some 1000) "chr2" "chr2" (by decide)).1⟩

/-- C2 counterexample: "chr1" after "chr2" fails with the sort error, but the
error message does not contain the offending chromosome name "chr1" — the
claim that the message cites the offending name is false. -/
theorem C2_counterexample :
    writerIterNext (fun _ => some 1000) (some "chr2") (some "chr1") =
      Except.error (WriteGroupsError.InvalidInput notSortedMsg) ∧
    strContains notSortedMsg "chr1" = false := by
  refine ⟨rfl, by decide⟩

/-- C3: when the grouper yields a group for a chromosome absent from the
chrom-sizes map (and the ordering check passes: first group, or name
strictly greater than the previous), `next()` returns an `InvalidInput`
error whose message is literally "Input bedGraph contains chromosome that
isn't in the input chrom sizes: " followed by that chromosome name, and no
group is begun (the call returns an error, not a group). -/
theorem C3_unknown_chrom_error (chrom_map : String → Option Nat)
    (last_chrom : Option String) (chrom : String)
    (hsort : last_chrom = none ∨ ∃ c, last_chrom = some c ∧ strGe c chrom = false)
    (habsent : chrom_map chrom = none) :
    writerIterNext chrom_map last_chrom (some chrom) =
      Except.error (WriteGroupsError.InvalidInput
        ("Input bedGraph contains chromosome that isn't in the input chrom sizes: "
          ++ chrom)) := by
  rcases hsort with h | ⟨c, hc, hge⟩
  · subst h
    simp [writerIterNext, habsent]
  · subst hc
    simp [writerIterNext, habsent, hge]

/-- C3 witness: a map knowing only "chr1" rejects a group for "chrX". -/
theorem C3_unknown_chrom_error_witness :
    writerIterNext (fun s => if s = "chr1" then some 1000 else none)
        (some "chr1") (some "chrX") =
      Except.error (WriteGroupsError.InvalidInput
        ("Input bedGraph contains chromosome that isn't in the input chrom sizes: "
          ++ "chrX")) :=
  C3_unknown_chrom_error (fun s => if s = "chr1" then some 1000 else none)
    (some "chr1") "chrX" (Or.inr ⟨"chr1", rfl, by decide⟩) (by decide)

/-! ## The chromosome grouper (`BedParser` / `ChromGroup`, `src/bedparser.rs`)

`BedParser` wraps a streaming record source and hands out one
`ChromGroup` sub-stream per chromosome.  A single `BedParserState` —
the source plus a one-record lookahead — lives in an atomically swappable
cell shared between the grouper and the active sub-stream.  We model the
record source as the list of its remaining `(chrom, record)` tuples
(I/O errors are outside these claims), a Rust panic as the `violation`
result, and the cell plus the sub-stream's `curr_state` field explicitly. -/

/-- `ChromOpt` from `src/bedparser.rs`: what the lookahead's chromosome is,
relative to the current one. -/
inductive ChromOpt
  | None
  | Same
  | Diff (chrom : String)
  deriving Repr, DecidableEq

/-- `BedParserState`: the record source (modelled by its remaining tuples),
the current chromosome and value, and the one-record lookahead. -/
structure BedParserState where
  stream : List (String × BedEntry)
  curr_chrom : Option String
  curr_val : Option BedEntry
  next_chrom : ChromOpt
  next_val : Option BedEntry
  deriving Repr, DecidableEq

/-- The body of `BedParserState::advance` without its trailing conditional
recursion: shift the lookahead into the current slots, then refill the
lookahead from the source. -/
def advanceOnce (s : BedParserState) : BedParserState :=
  let curr_val := s.next_val
  let curr_chrom : Option String :=
    match s.next_chrom with
    | ChromOpt.Diff real_chrom => some real_chrom
    | ChromOpt.Same => s.curr_chrom
    | ChromOpt.None => none
  match s.stream with
  | [] =>
    { stream := [], curr_chrom := curr_chrom, curr_val := curr_val,
      next_chrom := ChromOpt.None, next_val := none }
  | (chrom, v) :: rest =>
    let next_chrom :=
      match curr_chrom with
      | some c => if c = chrom then ChromOpt.Same else ChromOpt.Diff chrom
      | none => ChromOpt.Diff chrom
    { stream := rest, curr_chrom := curr_chrom, curr_val := curr_val,
      next_chrom := next_chrom, next_val := some v }

/-- `BedParserState::advance`: one shift, then — when the current value is
still empty but a lookahead value exists (the very first advance of a run) —
a second shift.  In the source this is a recursive call; after the second
shift `curr_val` is filled, so the recursion depth never exceeds two. -/
def advance (s : BedParserState) : BedParserState :=
  let s1 := advanceOnce s
  if s1.curr_val = none ∧ s1.next_val ≠ none then advanceOnce s1 else s1

/-- Outcome of a call that may hit the grouper's usage contract:
`violation` models the Rust panic. -/
inductive CallResult (α : Type)
  | violation
  | ok (val : α)
  deriving Repr, DecidableEq

/-- The cell of a freshly built `BedParser` over the given record source. -/
def initParser (stream : List (String × BedEntry)) : Option BedParserState :=
  some { stream := stream, curr_chrom := none, curr_val := none,
         next_chrom := ChromOpt.None, next_val := none }

/-- `BedParser::next` (the grouper): swap the state out of the cell —
panicking when a sub-stream still holds it or when the lookahead is still on
the same chromosome — advance, and return the new current chromosome's name
together with the cell's content after the closing swap.  A returned group
shares the cell (a `GroupWorld` with empty `curr_state`). -/
def parserNext (cell : Option BedParserState) :
    CallResult (Option String × Option BedParserState) :=
  match cell with
  | none => CallResult.violation
  | some state₀ =>
    match state₀.next_chrom with
    | ChromOpt.Same => CallResult.violation
    | _ =>
      let state := advance state₀
      match state.curr_chrom with
      | none => CallResult.ok (none, some state)
      | some chrom => CallResult.ok (some chrom, some state)

/-- The shared cell plus the `curr_state` field of the live `ChromGroup`. -/
structure GroupWorld where
  cell : Option BedParserState
  curr_state : Option BedParserState
  deriving Repr, DecidableEq

/-- The state-checkout prologue shared by `ChromGroup::next` and
`ChromGroup::peek`: take the state from `curr_state`, or swap it out of the
cell, panicking when neither holds it. -/
def groupCheckout (w : GroupWorld) :
    CallResult (BedParserState × Option BedParserState) :=
  match w.curr_state with
  | some s => CallResult.ok (s, w.cell)
  | none =>
    match w.cell with
    | none => CallResult.violation
    | some s => CallResult.ok (s, none)

/-- `ChromGroup::next`: yield the current value if one is pending; signal
end-of-group when the lookahead is on a different chromosome; otherwise
advance and yield the shifted-in value. -/
def groupNext (w : GroupWorld) : CallResult (Option BedEntry × GroupWorld) :=
  match groupCheckout w with
  | CallResult.violation => CallResult.violation
  | CallResult.ok (state, cell) =>
    match state.curr_val with
    | some val =>
      CallResult.ok (some val, ⟨cell, some { state with curr_val := none }⟩)
    | none =>
      match state.next_chrom with
      | ChromOpt.Diff _ => CallResult.ok (none, ⟨cell, some state⟩)
      | _ =>
        let state := advance state
        CallResult.ok (state.curr_val, ⟨cell, some { state with curr_val := none }⟩)

/-- `ChromGroup::peek`: return the lookahead value without consuming it;
`none` when the lookahead is on a different chromosome. -/
def groupPeek (w : GroupWorld) : CallResult (Option BedEntry × GroupWorld) :=
  match groupCheckout w with
  | CallResult.violation => CallResult.violation
  | CallResult.ok (state, cell) =>
    match state.next_chrom with
    | ChromOpt.Diff _ => CallResult.ok (none, ⟨cell, some state⟩)
    | _ => CallResult.ok (state.next_val, ⟨cell, some state⟩)

/-- `ChromGroup::drop`: return the held state, if any, to the cell. -/
def groupDrop (w : GroupWorld) : Option BedParserState :=
  match w.curr_state with
  | some s => some s
  | none => w.cell

/-- C4: calling the grouper's `next()` while the previously returned
sub-stream has not been exhausted — the cell is empty because the sub-stream
holds the state, or the returned state's lookahead is still on the same
chromosome — panics (a loud synchronous contract violation) instead of
yielding a value or stalling. -/
theorem C4_grouper_next_violation (cell : Option BedParserState)
    (h : cell = none ∨ ∃ s, cell = some s ∧ s.next_chrom = ChromOpt.Same) :
    parserNext cell = CallResult.violation := by
  rcases h with rfl | ⟨s, rfl, hs⟩
  · rfl
  · simp [parserNext, hs]

/-- C4 witness: both violation shapes, at concrete states. -/
theorem C4_grouper_next_violation_witness :
    parserNext (none : Option BedParserState) = CallResult.violation ∧
    parserNext (some ⟨[], some "chr1", none, ChromOpt.Same, some ⟨1, 2, ""⟩⟩) =
      CallResult.violation :=
  ⟨C4_grouper_next_violation none (Or.inl rfl),
   C4_grouper_next_violation (some ⟨[], some "chr1", none, ChromOpt.Same, some ⟨1, 2, ""⟩⟩)
     (Or.inr ⟨_, rfl, rfl⟩)⟩

/-- Spec-side: the parser state part-way through the group for chromosome
`c`: the records of `pending` are still to be yielded; after them the
lookahead holds `w` on the different chromosome `c2`, with `rest` still on
the underlying source. -/
def midState (c : String) (pending : List BedEntry) (c2 : String) (w : BedEntry)
    (rest : List (String × BedEntry)) : BedParserState :=
  match pending with
  | [] =>
    { stream := rest, curr_chrom := some c, curr_val := none,
      next_chrom := ChromOpt.Diff c2, next_val := some w }
  | p :: ps =>
    { stream := ps.map (fun x => (c, x)) ++ (c2, w) :: rest,
      curr_chrom := some c, curr_val := none,
      next_chrom := ChromOpt.Same, next_val := some p }

/-- Spec-side: the parser state right after the grouper returns the group
for chromosome `c`: its first record `v` sits in `curr_val`, with `vs` still
to come before the lookahead reaches `w` on chromosome `c2`. -/
def freshState (c : String) (v : BedEntry) (vs : List BedEntry) (c2 : String)
    (w : BedEntry) (rest : List (String × BedEntry)) : BedParserState :=
  { midState c vs c2 w rest with curr_val := some v }

/-- Drive `ChromGroup::next` until it signals end-of-group, collecting the
yielded records; `none` when the fuel runs out or a call panics. -/
def runGroup (fuel : Nat) (w : GroupWorld) : Option (List BedEntry × GroupWorld) :=
  match fuel with
  | 0 => none
  | fuel + 1 =>
    match groupNext w with
    | CallResult.violation => none
    | CallResult.ok (none, w2) => some ([], w2)
    | CallResult.ok (some v, w2) =>
      match runGroup fuel w2 with
      | none => none
      | some (l, w3) => some (v :: l, w3)

theorem runGroup_succ (fuel : Nat) (w : GroupWorld) :
    runGroup (fuel + 1) w =
      match groupNext w with
      | CallResult.violation => none
      | CallResult.ok (none, w2) => some ([], w2)
      | CallResult.ok (some v, w2) =>
        match runGroup fuel w2 with
        | none => none
        | some (l, w3) => some (v :: l, w3) := rfl

theorem groupNext_mid_cons (c c2 : String) (hne : c ≠ c2) (p : BedEntry)
    (ps : List BedEntry) (w : BedEntry) (rest : List (String × BedEntry)) :
    groupNext ⟨none, some (midState c (p :: ps) c2 w rest)⟩ =
      CallResult.ok (some p, ⟨none, some (midState c ps c2 w rest)⟩) := by
  cases ps with
  | nil => simp [groupNext, groupCheckout, midState, advance, advanceOnce, hne]
  | cons q qs => simp [groupNext, groupCheckout, midState, advance, advanceOnce, hne]

theorem groupNext_mid_nil (c c2 : String) (w : BedEntry)
    (rest : List (String × BedEntry)) :
    groupNext ⟨none, some (midState c [] c2 w rest)⟩ =
      CallResult.ok (none, ⟨none, some (midState c [] c2 w rest)⟩) := by
  simp [groupNext, groupCheckout, midState]

theorem runGroup_mid (c c2 : String) (hne : c ≠ c2) (w : BedEntry)
    (rest : List (String × BedEntry)) (pending : List BedEntry) :
    runGroup (pending.length + 1) ⟨none, some (midState c pending c2 w rest)⟩ =
      some (pending, ⟨none, some (midState c [] c2 w rest)⟩) := by
  induction pending with
  | nil => simp [runGroup, groupNext_mid_nil]
  | cons p ps ih =>
    simp only [List.length_cons]
    rw [runGroup_succ, groupNext_mid_cons c c2 hne p ps w rest]
    dsimp only
    rw [ih]

/-- C5: for a record stream opening with the records `v :: vs` of chromosome
`c`, followed by a record `w` of a different chromosome `c2` and anything
further: the grouper returns the group for `c`; driving that sub-stream
yields exactly `v :: vs` and then end-of-group at the first record of the
other chromosome; the differing record `w` is held as the one-record
lookahead (`next_val` of the surviving state, with `next_chrom` marking the
chromosome change), and the next group the grouper returns is for `c2` with
`w` as its first record. -/
theorem C5_group_yields_chromosome_run (c c2 : String) (hne : c ≠ c2)
    (v : BedEntry) (vs : List BedEntry) (w : BedEntry)
    (rest : List (String × BedEntry)) :
    parserNext (initParser (((v :: vs).map (fun x => (c, x))) ++ (c2, w) :: rest)) =
      CallResult.ok (some c, some (freshState c v vs c2 w rest)) ∧
    runGroup (vs.length + 2) ⟨some (freshState c v vs c2 w rest), none⟩ =
      some (v :: vs, ⟨none, some (midState c [] c2 w rest)⟩) ∧
    (midState c [] c2 w rest).next_val = some w ∧
    (midState c [] c2 w rest).next_chrom = ChromOpt.Diff c2 ∧
    (∃ s2, parserNext (groupDrop ⟨none, some (midState c [] c2 w rest)⟩) =
        CallResult.ok (some c2, some s2) ∧ s2.curr_val = some w) := by
  refine ⟨?_, ?_, rfl, rfl, ?_⟩
  · cases vs with
    | nil =>
      simp [parserNext, initParser, advance, advanceOnce, freshState, midState, hne]
    | cons p ps =>
      simp [parserNext, initParser, advance, advanceOnce, freshState, midState, hne]
  · have h1 : groupNext ⟨some (freshState c v vs c2 w rest), none⟩ =
        CallResult.ok (some v, ⟨none, some (midState c vs c2 w rest)⟩) := by
      cases vs with
      | nil => simp [groupNext, groupCheckout, freshState, midState]
      | cons p ps => simp [groupNext, groupCheckout, freshState, midState]
    have h2 := runGroup_mid c c2 hne w rest vs
    have hfuel : vs.length + 2 = (vs.length + 1) + 1 := rfl
    rw [hfuel, runGroup_succ, h1]
    dsimp only
    rw [h2]
  · refine ⟨advance (midState c [] c2 w rest), ?_, ?_⟩
    · simp [parserNext, groupDrop, midState, advance, advanceOnce]
      cases rest with
      | nil => simp
      | cons hd tl => obtain ⟨rc, rv⟩ := hd; simp
    · simp [advance, advanceOnce, midState]
      cases rest with
      | nil => simp
      | cons hd tl => obtain ⟨rc, rv⟩ := hd; simp

/-- C5 witness: a concrete two-chromosome stream. -/
theorem C5_group_yields_chromosome_run_witness :
    runGroup 3 ⟨some (freshState "chr1" ⟨1, 2, "a"⟩ [⟨3, 4, "b"⟩] "chr2" ⟨5, 6, "c"⟩ []), none⟩ =
      some ([⟨1, 2, "a"⟩, ⟨3, 4, "b"⟩],
        ⟨none, some (midState "chr1" [] "chr2" ⟨5, 6, "c"⟩ [])⟩) :=
  (C5_group_yields_chromosome_run "chr1" "chr2" (by decide) ⟨1, 2, "a"⟩ [⟨3, 4, "b"⟩]
    ⟨5, 6, "c"⟩ []).2.1

theorem advanceOnce_curr_val (s : BedParserState) :
    (advanceOnce s).curr_val = s.next_val := by
  unfold advanceOnce
  cases s.stream with
  | nil => rfl
  | cons hd tl => obtain ⟨a, b⟩ := hd; rfl

theorem advance_of_next_some (s : BedParserState) (r : BedEntry)
    (h : s.next_val = some r) :
    advance s = advanceOnce s ∧ (advanceOnce s).curr_val = some r := by
  have h1 : (advanceOnce s).curr_val = some r := by rw [advanceOnce_curr_val, h]
  refine ⟨?_, h1⟩
  unfold advance
  simp [h1]

theorem advanceOnce_curr_chrom_diff (s : BedParserState) (c2 : String)
    (h : s.next_chrom = ChromOpt.Diff c2) :
    (advanceOnce s).curr_chrom = some c2 := by
  unfold advanceOnce
  cases s.stream with
  | nil => simp [h]
  | cons hd tl => obtain ⟨a, b⟩ := hd; simp [h]

/-- C6 (amended): on a checked-out sub-stream state, `peek()` returns the
held lookahead without consuming it, so consecutive peeks agree; when the
group's current-value slot is empty — as it is after every `next()` call on
the group — the `next()` call following a successful peek returns the peeked
record; and `peek()` returns none when the lookahead is on a different
chromosome (`Diff`) or the stream is exhausted (no lookahead value).  (On a
group fresh from the grouper the current-value slot still holds the group's
first record, and peek — which looks only at the lookahead — shows the
second record while `next()` returns the first; the claim's peek/next
agreement does not hold there.) -/
theorem C6_peek_behaviour (s : BedParserState) :
    (∀ r w2, groupPeek ⟨none, some s⟩ = CallResult.ok (r, w2) →
      groupPeek w2 = CallResult.ok (r, w2)) ∧
    (s.curr_val = none →
      ∀ r w2, groupPeek ⟨none, some s⟩ = CallResult.ok (some r, w2) →
        ∃ w3, groupNext w2 = CallResult.ok (some r, w3)) ∧
    (((∃ c2, s.next_chrom = ChromOpt.Diff c2) ∨ s.next_val = none) →
      groupPeek ⟨none, some s⟩ = CallResult.ok (none, ⟨none, some s⟩)) := by
  refine ⟨?_, ?_, ?_⟩
  · intro r w2 h
    rcases hnc : s.next_chrom with _ | _ | c2 <;>
      simp only [groupPeek, groupCheckout, hnc, CallResult.ok.injEq, Prod.mk.injEq] at h <;>
      obtain ⟨h1, h2⟩ := h <;> subst h1 <;> subst h2 <;>
      simp only [groupPeek, groupCheckout, hnc]
  · intro hcv r w2 h
    rcases hnc : s.next_chrom with _ | _ | c2
    case Diff =>
      simp only [groupPeek, groupCheckout, hnc, CallResult.ok.injEq, Prod.mk.injEq,
        reduceCtorEq, false_and] at h
    all_goals
      simp only [groupPeek, groupCheckout, hnc, CallResult.ok.injEq, Prod.mk.injEq] at h
      obtain ⟨h1, h2⟩ := h
      subst h2
      obtain ⟨hadv, hval⟩ := advance_of_next_some s r h1
      refine ⟨⟨none, some { advance s with curr_val := none }⟩, ?_⟩
      simp only [groupNext, groupCheckout, hcv, hnc, hadv, hval]
  · intro h
    rcases h with ⟨c2, hnc⟩ | hnv
    · simp [groupPeek, groupCheckout, hnc]
    · rcases hnc : s.next_chrom with _ | _ | c2 <;>
        simp [groupPeek, groupCheckout, hnc, hnv]

/-- C6 witness: on a mid-group state (empty current slot, same-chromosome
lookahead holding the record `(3,4,"b")`), peek then next agree. -/
theorem C6_peek_behaviour_witness :
    ∃ w3, groupNext ⟨none, some ⟨[], some "chr1", none, ChromOpt.Same, some ⟨3, 4, "b"⟩⟩⟩ =
      CallResult.ok (some ⟨3, 4, "b"⟩, w3) :=
  (C6_peek_behaviour ⟨[], some "chr1", none, ChromOpt.Same, some ⟨3, 4, "b"⟩⟩).2.1
    rfl ⟨3, 4, "b"⟩ ⟨none, some ⟨[], some "chr1", none, ChromOpt.Same, some ⟨3, 4, "b"⟩⟩⟩ rfl

/-- C6 counterexample: on the sub-stream state fresh from the grouper for
the stream `chr1:(1,2,"a")`, `chr1:(3,4,"b")`, `peek()` returns the second
record `(3,4,"b")` (the lookahead) while the following `next()` returns the
first record `(1,2,"a")` (still sitting in the current-value slot) — so the
claim that the next() following a peek returns the peeked record is false
for this sub-stream state. -/
theorem C6_counterexample :
    parserNext (initParser [("chr1", ⟨1, 2, "a"⟩), ("chr1", ⟨3, 4, "b"⟩)]) =
      CallResult.ok (some "chr1",
        some ⟨[], some "chr1", some ⟨1, 2, "a"⟩, ChromOpt.Same, some ⟨3, 4, "b"⟩⟩) ∧
    groupPeek ⟨some ⟨[], some "chr1", some ⟨1, 2, "a"⟩, ChromOpt.Same, some ⟨3, 4, "b"⟩⟩, none⟩ =
      CallResult.ok (some ⟨3, 4, "b"⟩,
        ⟨none, some ⟨[], some "chr1", some ⟨1, 2, "a"⟩, ChromOpt.Same, some ⟨3, 4, "b"⟩⟩⟩) ∧
    groupNext ⟨none, some ⟨[], some "chr1", some ⟨1, 2, "a"⟩, ChromOpt.Same, some ⟨3, 4, "b"⟩⟩⟩ =
      CallResult.ok (some ⟨1, 2, "a"⟩,
        ⟨none, some ⟨[], some "chr1", none, ChromOpt.Same, some ⟨3, 4, "b"⟩⟩⟩) ∧
    (⟨1, 2, "a"⟩ : BedEntry) ≠ ⟨3, 4, "b"⟩ := by
  refine ⟨rfl, rfl, rfl, by decide⟩

/-- C7 (amended): dropping a sub-stream returns its held state — lookahead
included — to the grouper's cell; when at drop time the lookahead is already
on a different chromosome `c2`, the grouper's following `next()` succeeds,
yields the group for `c2`, and that group's first pending record is exactly
the held lookahead record.  (When same-chromosome records remain at drop
time, the following `next()` instead panics; see the counterexample.) -/
theorem C7_drop_preserves_lookahead (s : BedParserState) (c2 : String) (w : BedEntry)
    (h1 : s.next_chrom = ChromOpt.Diff c2) (h2 : s.next_val = some w) :
    groupDrop ⟨none, some s⟩ = some s ∧
    ∃ s2, parserNext (groupDrop ⟨none, some s⟩) = CallResult.ok (some c2, some s2) ∧
      s2.curr_val = some w := by
  obtain ⟨hadv, hval⟩ := advance_of_next_some s w h2
  have hcc : (advance s).curr_chrom = some c2 := by
    rw [hadv]; exact advanceOnce_curr_chrom_diff s c2 h1
  have hcv : (advance s).curr_val = some w := by rw [hadv]; exact hval
  refine ⟨rfl, advance s, ?_, hcv⟩
  show parserNext (some s) = _
  simp only [parserNext, h1, hcc]

/-- C7 witness: dropping at a chromosome boundary, the next group is
"chr2" with the lookahead record first. -/
theorem C7_drop_preserves_lookahead_witness :
    ∃ s2, parserNext (groupDrop
        ⟨none, some ⟨[], some "chr1", none, ChromOpt.Diff "chr2", some ⟨5, 6, "c"⟩⟩⟩) =
      CallResult.ok (some "chr2", some s2) ∧ s2.curr_val = some ⟨5, 6, "c"⟩ :=
  (C7_drop_preserves_lookahead ⟨[], some "chr1", none, ChromOpt.Diff "chr2", some ⟨5, 6, "c"⟩⟩
    "chr2" ⟨5, 6, "c"⟩ rfl rfl).2

/-- C7 counterexample: for the stream `chr1:(1,2,"a")`, `chr1:(3,4,"b")`,
`chr2:(5,6,"c")`, take the chr1 group, consume one record, then drop the
sub-stream while the same-chromosome record `(3,4,"b")` is still pending.
The state is returned to the cell, but the grouper's next `next()` panics
(the `ChromOpt::Same` check) instead of succeeding — the claim that it
"still succeeds and yields the next chromosome group" is false for a
sub-stream abandoned before exhaustion. -/
theorem C7_counterexample :
    parserNext (initParser [("chr1", ⟨1, 2, "a"⟩), ("chr1", ⟨3, 4, "b"⟩), ("chr2", ⟨5, 6, "c"⟩)]) =
      CallResult.ok (some "chr1",
        some ⟨[("chr2", ⟨5, 6, "c"⟩)], some "chr1", some ⟨1, 2, "a"⟩,
          ChromOpt.Same, some ⟨3, 4, "b"⟩⟩) ∧
    groupNext ⟨some ⟨[("chr2", ⟨5, 6, "c"⟩)], some "chr1", some ⟨1, 2, "a"⟩,
        ChromOpt.Same, some ⟨3, 4, "b"⟩⟩, none⟩ =
      CallResult.ok (some ⟨1, 2, "a"⟩,
        ⟨none, some ⟨[("chr2", ⟨5, 6, "c"⟩)], some "chr1", none,
          ChromOpt.Same, some ⟨3, 4, "b"⟩⟩⟩) ∧
    groupDrop ⟨none, some ⟨[("chr2", ⟨5, 6, "c"⟩)], some "chr1", none,
        ChromOpt.Same, some ⟨3, 4, "b"⟩⟩⟩ =
      some ⟨[("chr2", ⟨5, 6, "c"⟩)], some "chr1", none, ChromOpt.Same, some ⟨3, 4, "b"⟩⟩ ∧
    parserNext (some ⟨[("chr2", ⟨5, 6, "c"⟩)], some "chr1", none,
        ChromOpt.Same, some ⟨3, 4, "b"⟩⟩) = CallResult.violation := by
  refine ⟨rfl, rfl, rfl, rfl⟩

/-! ## `BigWigRead::values` (`src/bigwig/bigwigread.rs`)

`values(chrom, start, end)` allocates `vec![NAN; end - start]`, then for each
overlapping block decodes it with `get_block_values` and overwrites
`values[bv.start - start .. bv.end - start]` with the record's value.  The
overlapping blocks are modelled by the list of their decoded contents
(`BWSection`), reusing the block decoder embedded above. -/

/-- The bit pattern of `std::f32::NAN` (0x7FC00000): `f32` values are
modelled by their 32-bit patterns, which this code only copies. -/
def f32NanBits : Nat := 0x7FC00000

/-- Overwrite the elements of the slice `[lo, hi)` (positions counted from
`idx`) with `v`. -/
def writeRangeAux (lo hi v : Nat) : Nat → List Nat → List Nat
  | _, [] => []
  | idx, x :: xs =>
    (if lo ≤ idx ∧ idx < hi then v else x) :: writeRangeAux lo hi v (idx + 1) xs

/-- `for i in &mut values[lo..hi] { *i = v }`. -/
def writeRange (vals : List Nat) (lo hi v : Nat) : List Nat :=
  writeRangeAux lo hi v 0 vals

/-- The inner loop of `values`: write each clipped block record into the
output vector. -/
def foldWrites (qs : Nat) (recs : List Value) (vals : List Nat) : List Nat :=
  recs.foldl (fun acc bv => writeRange acc (bv.start - qs) (bv.stop - qs) bv.value) vals

/-- `BigWigRead::values`: a NaN-prefilled vector of `qe - qs` entries,
overwritten by the clipped records of each overlapping block in order. -/
def bwValues (blocks : List BWSection) (qs qe : Nat) : List Nat :=
  blocks.foldl (fun acc sec => foldWrites qs (get_block_values sec qs qe) acc)
    (List.replicate (qe - qs) f32NanBits)

/-- Spec-side: the value at base `b` after applying the records of `recs` in
order (later writes win), starting from `x`. -/
def overwrite (b : Nat) (recs : List Value) (x : Nat) : Nat :=
  recs.foldl (fun acc r => if r.start ≤ b ∧ b < r.stop then r.value else acc) x

theorem overwrite_cons (b : Nat) (r : Value) (rs : List Value) (x : Nat) :
    overwrite b (r :: rs) x =
      overwrite b rs (if r.start ≤ b ∧ b < r.stop then r.value else x) := rfl

theorem foldWrites_cons (qs : Nat) (r : Value) (rs : List Value) (vals : List Nat) :
    foldWrites qs (r :: rs) vals =
      foldWrites qs rs (writeRange vals (r.start - qs) (r.stop - qs) r.value) := rfl

theorem writeRangeAux_length (lo hi v : Nat) (xs : List Nat) :
    ∀ idx, (writeRangeAux lo hi v idx xs).length = xs.length := by
  induction xs with
  | nil => intro idx; rfl
  | cons x xs ih => intro idx; simp [writeRangeAux, ih]

theorem writeRangeAux_getElem? (lo hi v : Nat) (xs : List Nat) :
    ∀ idx i, (writeRangeAux lo hi v idx xs)[i]? =
      (xs[i]?).map (fun x => if lo ≤ idx + i ∧ idx + i < hi then v else x) := by
  induction xs with
  | nil => intro idx i; rfl
  | cons x xs ih =>
    intro idx i
    cases i with
    | zero => simp [writeRangeAux]
    | succ n =>
      have h := ih (idx + 1) n
      simp only [writeRangeAux, List.getElem?_cons_succ, h]
      have : idx + 1 + n = idx + (n + 1) := by omega
      rw [this]

theorem writeRange_getElem? (vals : List Nat) (lo hi v i : Nat) :
    (writeRange vals lo hi v)[i]? =
      (vals[i]?).map (fun x => if lo ≤ i ∧ i < hi then v else x) := by
  have h := writeRangeAux_getElem? lo hi v vals 0 i
  simpa [writeRange] using h

theorem foldWrites_length (qs : Nat) (recs : List Value) :
    ∀ vals, (foldWrites qs recs vals).length = vals.length := by
  induction recs with
  | nil => intro vals; rfl
  | cons r rs ih =>
    intro vals
    rw [foldWrites_cons, ih]
    exact writeRangeAux_length _ _ _ vals 0

theorem foldWrites_getElem? (qs : Nat) (recs : List Value) :
    ∀ (vals : List Nat) (i : Nat),
      (foldWrites qs recs vals)[i]? = (vals[i]?).map (overwrite (qs + i) recs) := by
  induction recs with
  | nil =>
    intro vals i
    show vals[i]? = _
    cases vals[i]? <;> rfl
  | cons r rs ih =>
    intro vals i
    rw [foldWrites_cons, ih, writeRange_getElem?, Option.map_map]
    have hc : (r.start - qs ≤ i ∧ i < r.stop - qs) ↔
        (r.start ≤ qs + i ∧ qs + i < r.stop) := by omega
    congr 1
    funext x
    show overwrite (qs + i) rs _ = overwrite (qs + i) (r :: rs) x
    rw [overwrite_cons]
    exact congrArg (overwrite (qs + i) rs) (if_congr hc rfl rfl)

theorem bwValues_flatten (blocks : List BWSection) (qs qe : Nat) :
    bwValues blocks qs qe =
      foldWrites qs ((blocks.map (fun sec => get_block_values sec qs qe)).flatten)
        (List.replicate (qe - qs) f32NanBits) := by
  suffices h : ∀ (bs : List BWSection) (vals : List Nat),
      bs.foldl (fun acc sec => foldWrites qs (get_block_values sec qs qe) acc) vals =
        foldWrites qs ((bs.map (fun sec => get_block_values sec qs qe)).flatten) vals from
    h blocks _
  intro bs
  induction bs with
  | nil => intro vals; rfl
  | cons sec rest ih =>
    intro vals
    simp only [List.foldl_cons, List.map_cons, List.flatten_cons, ih]
    show _ = List.foldl _ vals (_ ++ _)
    rw [List.foldl_append]
    rfl

theorem flatten_blocks_filterMap (blocks : List BWSection) (qs qe : Nat) :
    (blocks.map (fun sec => get_block_values sec qs qe)).flatten =
      ((blocks.map decodeSection).flatten).filterMap (keepClip qs qe) := by
  induction blocks with
  | nil => rfl
  | cons sec rest ih =>
    simp only [List.map_cons, List.flatten_cons]
    rw [List.filterMap_append, ih, get_block_values_eq_filterMap]

theorem overwrite_filterMap (qs qe b : Nat) (hqs : qs ≤ b) (hqe : b < qe) :
    ∀ (raw : List Value) (x : Nat),
      overwrite b (raw.filterMap (keepClip qs qe)) x = overwrite b raw x := by
  intro raw
  induction raw with
  | nil => intro x; rfl
  | cons r rest ih =>
    intro x
    cases hk : keepClip qs qe r with
    | none =>
      have hnc : ¬ (r.start ≤ b ∧ b < r.stop) := by
        intro hcov
        have hcond : qs ≤ r.stop ∧ r.start ≤ qe := ⟨by omega, by omega⟩
        simp [keepClip, hcond] at hk
      rw [List.filterMap_cons, hk, ih, overwrite_cons, if_neg hnc]
    | some rc =>
      obtain ⟨hcond, hrc⟩ := (keepClip_eq_some qs qe r rc).mp hk
      rw [List.filterMap_cons, hk]
      show overwrite b (rc :: _) x = _
      rw [overwrite_cons, ih, overwrite_cons]
      congr 1
      have hcov : (rc.start ≤ b ∧ b < rc.stop) ↔ (r.start ≤ b ∧ b < r.stop) := by
        subst hrc; dsimp only; omega
      have hval : rc.value = r.value := by subst hrc; rfl
      rw [if_congr hcov hval rfl]

theorem overwrite_of_no_cover (b : Nat) : ∀ (recs : List Value) (x : Nat),
    (∀ r ∈ recs, ¬ (r.start ≤ b ∧ b < r.stop)) → overwrite b recs x = x := by
  intro recs
  induction recs with
  | nil => intro x _; rfl
  | cons r rest ih =>
    intro x h
    rw [overwrite_cons, if_neg (h r (by simp))]
    exact ih x (fun c hc => h c (by simp [hc]))

theorem overwrite_eq_find? (b : Nat) : ∀ (recs : List Value) (x : Nat),
    recs.Pairwise (fun a c => a.stop ≤ c.start ∨ c.stop ≤ a.start) →
    overwrite b recs x =
      (match recs.find? (fun r => decide (r.start ≤ b ∧ b < r.stop)) with
       | some r => r.value
       | none => x) := by
  intro recs
  induction recs with
  | nil => intro x _; rfl
  | cons r rest ih =>
    intro x hp
    rw [List.pairwise_cons] at hp
    obtain ⟨hr, hrest⟩ := hp
    by_cases hc : r.start ≤ b ∧ b < r.stop
    · rw [overwrite_cons, if_pos hc, List.find?_cons_of_pos rest (by simpa using hc)]
      exact overwrite_of_no_cover b rest r.value
        (fun c hcm hcc => by rcases hr c hcm with h | h <;> omega)
    · rw [overwrite_cons, if_neg hc, List.find?_cons_of_neg rest (by simpa using hc),
        ih x hrest]

/-- C8: for `qs ≤ qe`, blocks whose records are well-formed (`start ≤ end`,
an invariant of BigWig files; the hypothesis records the model's scope since
a malformed record would make the Rust slice write panic) and pairwise
non-overlapping (at most one file record covers each base), `values` returns
exactly `qe - qs` entries, and entry `i` is the value of the record covering
base `qs + i`, or the NaN bit pattern when no record covers it. -/
theorem C8_values_characterization (blocks : List BWSection) (qs qe : Nat)
    (hle : qs ≤ qe)
    (_hwf : ∀ r ∈ (blocks.map decodeSection).flatten, r.start ≤ r.stop)
    (hdisj : ((blocks.map decodeSection).flatten).Pairwise
      (fun a c => a.stop ≤ c.start ∨ c.stop ≤ a.start)) :
    (bwValues blocks qs qe).length = qe - qs ∧
    ∀ i, i < qe - qs →
      (bwValues blocks qs qe)[i]? =
        some (match ((blocks.map decodeSection).flatten).find?
            (fun r => decide (r.start ≤ qs + i ∧ qs + i < r.stop)) with
          | some r => r.value
          | none => f32NanBits) := by
  have hflat : bwValues blocks qs qe =
      foldWrites qs (((blocks.map decodeSection).flatten).filterMap (keepClip qs qe))
        (List.replicate (qe - qs) f32NanBits) := by
    rw [bwValues_flatten, flatten_blocks_filterMap]
  constructor
  · rw [hflat, foldWrites_length, List.length_replicate]
  · intro i hi
    rw [hflat, foldWrites_getElem?, List.getElem?_replicate, if_pos hi]
    show some _ = some _
    refine congrArg some ?_
    rw [overwrite_filterMap qs qe (qs + i) (Nat.le_add_right qs i) (by omega),
      overwrite_eq_find? (qs + i) _ f32NanBits hdisj]

/-- C8 witness: one bedGraph block with records `[0,2)=7` and `[2,4)=9`,
queried over `[1,4)`: three entries, the first holding the value covering
base 1. -/
theorem C8_values_characterization_witness :
    (bwValues [⟨0, 0, 0, SectionItems.bedGraph [(0, 2, 7), (2, 4, 9)]⟩] 1 4).length = 4 - 1 ∧
    (bwValues [⟨0, 0, 0, SectionItems.bedGraph [(0, 2, 7), (2, 4, 9)]⟩] 1 4)[0]? = some 7 := by
  have h := C8_values_characterization
    [⟨0, 0, 0, SectionItems.bedGraph [(0, 2, 7), (2, 4, 9)]⟩] 1 4
    (by decide) (by decide) (by decide)
  exact ⟨h.1, (h.2 0 (by decide)).trans (by rfl)⟩

/-! ## Interval iterators (`IntervalIter::next`, both reader modules)

`IntervalIter` (and its owned twin) holds the remaining overlapping blocks
and an optional iterator over the current block's decoded records.  `next()`
loops: drain the current record iterator; when it is exhausted take the next
block, decode it (a fallible read), and either install its records or yield
the decode error.  Each block's decode outcome is modelled by an
`Except`: its record list, or its error. -/

/-- The iterator state: remaining blocks (with their decode outcomes) and
the current block's remaining records, when one is installed. -/
structure IntervalIter where
  blocks : List (Except String (List Value))
  vals : Option (List Value)
  deriving Repr

/-- The block-fetching phase of the `next()` loop, entered with `vals`
cleared: skip empty record iterators, install the next non-empty block and
yield its first record, or yield the block's decode error. -/
def scanBlocks : List (Except String (List Value)) →
    Option (Except String Value) × IntervalIter
  | [] => (none, ⟨[], none⟩)
  | Except.ok [] :: bs => scanBlocks bs
  | Except.ok (v :: vs) :: bs => (some (Except.ok v), ⟨bs, some vs⟩)
  | Except.error e :: bs => (some (Except.error e), ⟨bs, none⟩)

/-- `IntervalIter::next`: yield the next pending record, else move to the
block-fetching phase. -/
def intervalIterNext : IntervalIter → Option (Except String Value) × IntervalIter
  | ⟨blocks, some (v :: rest)⟩ => (some (Except.ok v), ⟨blocks, some rest⟩)
  | ⟨blocks, some []⟩ => scanBlocks blocks
  | ⟨blocks, none⟩ => scanBlocks blocks

/-- C9 counterexample: with a failing first block followed by a good one,
the first `next()` yields the error, and the second `next()` — far from
stopping — yields the good block's record: further items are yielded after
the first error item, so the claim is false. -/
theorem C9_counterexample :
    intervalIterNext ⟨[Except.error "bad block", Except.ok [⟨1, 2, 5⟩]], none⟩ =
      (some (Except.error "bad block"), ⟨[Except.ok [⟨1, 2, 5⟩]], none⟩) ∧
    intervalIterNext ⟨[Except.ok [⟨1, 2, 5⟩]], none⟩ =
      (some (Except.ok ⟨1, 2, 5⟩), ⟨[], some []⟩) :=
  ⟨rfl, rfl⟩

/-- C9 (amended): when decoding a block fails, the iterator yields that
error to the caller with the failed block consumed — but it is not fused:
the following `next()` call proceeds with the remaining blocks and can yield
further records (or further errors); `none` is returned only once the
remaining blocks are exhausted. -/
theorem C9_error_not_fused (e : String) (bs : List (Except String (List Value))) :
    intervalIterNext ⟨Except.error e :: bs, none⟩ =
      (some (Except.error e), ⟨bs, none⟩) ∧
    intervalIterNext ⟨Except.error e :: bs, some []⟩ =
      (some (Except.error e), ⟨bs, none⟩) ∧
    (∀ v vs bs2, bs = Except.ok (v :: vs) :: bs2 →
      intervalIterNext ⟨bs, none⟩ = (some (Except.ok v), ⟨bs2, some vs⟩)) ∧
    intervalIterNext ⟨[], none⟩ = (none, ⟨[], none⟩) := by
  refine ⟨rfl, rfl, ?_, rfl⟩
  rintro v vs bs2 rfl
  rfl

/-- C9 witness: after an error, the next call yields the good block's
record. -/
theorem C9_error_not_fused_witness :
    intervalIterNext ⟨[Except.ok [⟨3, 4, 9⟩]], none⟩ =
      (some (Except.ok ⟨3, 4, 9⟩), ⟨[], some []⟩) :=
  (C9_error_not_fused "boom" [Except.ok [⟨3, 4, 9⟩]]).2.2.1 ⟨3, 4, 9⟩ [] [] rfl

/-! ## `BedStream::next` (`src/bedparser.rs`)

The text record source reads one line, splits it on whitespace, takes the
first field as the chromosome — returning `Ok(None)` when there is none —
parses the next two fields as `u32` (panicking via `expect`/`unwrap` on a
missing or malformed field), and joins the remaining fields with tabs.
Lines are modelled as char lists; `splitWS` models Rust's
`split_whitespace` (split on whitespace, dropping empty substrings). -/

/-- Rust's `str::split_whitespace`: maximal runs of non-whitespace
characters, in order. -/
def splitWS (l : List Char) : List (List Char) :=
  match l with
  | [] => []
  | c :: cs =>
    if c.isWhitespace then splitWS cs
    else (c :: cs.takeWhile (fun d => !d.isWhitespace)) ::
      splitWS (cs.dropWhile (fun d => !d.isWhitespace))
termination_by l.length
decreasing_by
  · exact Nat.lt_succ_self _
  · exact Nat.lt_succ_of_le (List.Sublist.length_le (List.dropWhile_sublist _))

/-- Rust's `str::parse::<u32>`: optional leading plus sign, one or more
digits, value below 2^32. -/
def parseU32 (cs : List Char) : Option Nat :=
  let ds := match cs with
    | '+' :: t => t
    | _ => cs
  if ds ≠ [] ∧ ds.all Char.isDigit then
    let n := ds.foldl (fun acc c => acc * 10 + (c.toNat - 48)) 0
    if n < U32MOD then some n else none
  else none

/-- `Vec::join("\t")` over the remaining fields. -/
def joinTabs : List (List Char) → List Char
  | [] => []
  | [w] => w
  | w :: ws => w ++ '\t' :: joinTabs ws

/-- `BedStream::next` over the remaining lines of the input: the yielded
record (chrom, start, end, rest) if any, plus the lines left unread;
`violation` models the `expect`/`unwrap` panic on a missing or malformed
numeric field. -/
def bedStreamNext (lines : List (List Char)) :
    CallResult (Option (List Char × Nat × Nat × List Char) × List (List Char)) :=
  match lines with
  | [] => CallResult.ok (none, [])
  | line :: rest =>
    match splitWS line with
    | [] => CallResult.ok (none, rest)
    | chrom :: fields =>
      match fields with
      | [] => CallResult.violation
      | startF :: fields2 =>
        match parseU32 startF with
        | none => CallResult.violation
        | some start =>
          match fields2 with
          | [] => CallResult.violation
          | endF :: rest_strings =>
            match parseU32 endF with
            | none => CallResult.violation
            | some e =>
              CallResult.ok (some (chrom, start, e, joinTabs rest_strings), rest)

theorem splitWS_all_whitespace : ∀ (l : List Char),
    l.all Char.isWhitespace = true → splitWS l = [] := by
  intro l
  induction l with
  | nil => intro _; simp [splitWS]
  | cons c cs ih =>
    intro h
    rw [List.all_cons, Bool.and_eq_true] at h
    rw [splitWS, if_pos h.1]
    exact ih h.2

/-- C10: a line with no non-whitespace character makes `BedStream::next`
return end-of-stream (`Ok(None)`) at once — even when well-formed record
lines follow, which stay unread — rather than skipping the blank line or
reporting an error. -/
theorem C10_blank_line_ends_stream (line : List Char) (rest : List (List Char))
    (h : line.all Char.isWhitespace = true) :
    bedStreamNext (line :: rest) = CallResult.ok (none, rest) := by
  rw [bedStreamNext, splitWS_all_whitespace line h]

/-- C10 witness: a space-tab line followed by a well-formed record line
still ends the stream. -/
theorem C10_blank_line_ends_stream_witness :
    bedStreamNext [[' ', '\t'],
        ['c', 'h', 'r', '1', ' ', '1', ' ', '2']] =
      CallResult.ok (none, [['c', 'h', 'r', '1', ' ', '1', ' ', '2']]) :=
  C10_blank_line_ends_stream [' ', '\t']
    [['c', 'h', 'r', '1', ' ', '1', ' ', '2']] (by decide)

end Bigtools
